import Mathlib

/-!
# Verification of the libnoise texture-synthesis pipeline

The repository's example programs (`texturejade.cpp`, `texturesky.cpp`,
`textureslime.cpp`, `texturewood.cpp`) drive an underlying engine — noise
modules (`noise::module::*`), map builders (`utils::NoiseMapBuilderPlane`,
`utils::NoiseMapBuilderSphere`), a color gradient, and an image renderer
(`utils::RendererImage`) — that is not itself present under `src/`; only its
callers are.  Following the specification (spec.md §§3–4), the engine is
modelled here over exact rationals (ℚ) for the planar pipeline and over ℝ for
the spherical projection, and the spec's testable properties are settled
against these models.
-/

namespace LibNoise

/-! ## Colors and gradients (spec §3 Gradient, §4.3 renderer color lookup) -/

/-- An 8-bit RGBA color.  Channels are naturals; the construction and
blending operations below keep them in `0..255`. -/
structure Color where
  r : ℕ
  g : ℕ
  b : ℕ
  a : ℕ
deriving DecidableEq, Repr

/-- Channel accessor: channels of a color indexed `0 = red, 1 = green,
2 = blue, 3 = alpha`. -/
def Color.chan (c : Color) (j : Fin 4) : ℕ :=
  if j.val = 0 then c.r else if j.val = 1 then c.g else if j.val = 2 then c.b else c.a

/-- Modelled from the spec: the renderer's per-channel linear blend
(§4.3 "interpolate color linearly between the two bracketing control
points").  The 8-bit channels are normalised to `[0,1]`, blended with weight
`alpha`, rescaled by 255, and truncated back to an integer channel value. -/
def blendChannel (c0 c1 : ℕ) (alpha : ℚ) : ℕ :=
  (Int.floor ((((c0 : ℚ) / 255) * (1 - alpha) + ((c1 : ℚ) / 255) * alpha) * 255)).toNat

/-- A gradient control point: a position on the scalar axis and its color
(spec §3: "(position: float, color: RGBA8)", positions exact here). -/
abbrev GradPoint := ℚ × Color

/-- Modelled from the spec: linear color interpolation between two bracketing
control points `p0`, `p1` at query position `q` (spec §4.3). -/
def interpColor (p0 p1 : GradPoint) (q : ℚ) : Color :=
  ⟨blendChannel p0.2.r p1.2.r ((q - p0.1) / (p1.1 - p0.1)),
   blendChannel p0.2.g p1.2.g ((q - p0.1) / (p1.1 - p0.1)),
   blendChannel p0.2.b p1.2.b ((q - p0.1) / (p1.1 - p0.1)),
   blendChannel p0.2.a p1.2.a ((q - p0.1) / (p1.1 - p0.1))⟩

/-- A gradient: the ordered-by-position sequence of control points of
spec §3. -/
abbrev Gradient := List GradPoint

/-- Modelled from the spec: `utils::GradientColor` lookup, absent from
`src/`.  Per spec §4.3, the query is clamped to the gradient's domain and the
color is interpolated linearly between the two bracketing control points,
with constant extrapolation outside the range (spec §3: "querying a position
below the first or above the last clamps to the respective endpoint
color"). -/
def getColor : Gradient → ℚ → Color
  | [], _ => ⟨0, 0, 0, 0⟩
  | [p], _ => p.2
  | p0 :: p1 :: rest, q =>
    if q ≤ p0.1 then p0.2
    else if q ≤ p1.1 then interpColor p0 p1 q
    else getColor (p1 :: rest) q

/-- Strict ordering of control points by position: the invariant of
spec §3. -/
abbrev SortedGradient (g : Gradient) : Prop :=
  g.Pairwise (fun p q => p.1 < q.1)

/-- Modelled from the spec: `AddGradientPoint`'s insertion-sort step, absent
from `src/` (spec §3: "positions strictly increasing after insertion-sort").
A point whose position is already present replaces the stored color so that
the operation is total and the strict ordering is preserved. -/
def insertPoint : Gradient → GradPoint → Gradient
  | [], p => [p]
  | q :: rest, p =>
    if p.1 < q.1 then p :: q :: rest
    else if p.1 = q.1 then p :: rest
    else q :: insertPoint rest p

/-- A gradient-configuration command of the external interface of spec §6:
`clear()` or `add_control_point(position, RGBA8)`. -/
inductive GradOp where
  | clear
  | addPoint (pos : ℚ) (color : Color)
deriving DecidableEq, Repr

/-- Run one gradient command against the stored control-point list. -/
def applyGradOp (g : Gradient) : GradOp → Gradient
  | .clear => []
  | .addPoint pos color => insertPoint g (pos, color)

/-- Run a sequence of gradient commands starting from the renderer's initial
empty gradient. -/
def applyGradOps (ops : List GradOp) : Gradient :=
  ops.foldl applyGradOp []

/-! ## Noise modules (spec §3 Module, §4.1 module graph & evaluation) -/

/-- Modelled from the spec: the lattice hash of §9 ("hashing lattice
coordinates with the seed"), the deterministic pseudo-random core of the
generators that are absent from `src/`.  An integer mix of the three lattice
coordinates and the seed, reduced modulo `2^31`. -/
def latticeHash (seed xi yi zi : ℤ) : ℤ :=
  let n := xi * 1619 + yi * 31337 + zi * 6971 + seed * 1013
  (n * (n * n * 60493 + 19990303) + 1376312589) % 2 ^ 31

/-- Modelled from the spec: a coherent-noise sample at a point, derived
purely from the seed and the sampled coordinate (spec §9; the exact kernel
is an open question of spec §9, any seed-deterministic choice is allowed).
The point is snapped to the integer lattice and the hash is rescaled into
`[-1, 1]`. -/
def valueNoise (seed : ℤ) (x y z : ℚ) : ℚ :=
  1 - ((latticeHash seed ⌊x⌋ ⌊y⌋ ⌊z⌋ % 2048 : ℤ) : ℚ) / 1024

/-- Modelled from the spec: octave summation (spec §4.1 "layered gradient
noise summed over octaves"), with the model's lacunarity 2 and
persistence 1/2 per octave. -/
def octaveNoise (seed : ℤ) : ℕ → ℚ → ℚ → ℚ → ℚ
  | 0, _, _, _ => 0
  | n + 1, x, y, z =>
    valueNoise (seed + n) (x * 2 ^ n) (y * 2 ^ n) (z * 2 ^ n) / 2 ^ n
      + octaveNoise seed n x y z

/-- Linear interpolation between `n0` and `n1` with weight `a`. -/
def linearInterp (n0 n1 a : ℚ) : ℚ :=
  n0 + a * (n1 - n0)

/-- Cubic S-curve easing, the "cubic smoothing" of the selector's falloff
band (spec §4.1). -/
def sCurve3 (a : ℚ) : ℚ :=
  a * a * (3 - 2 * a)

/-- Modelled from the spec: the selector's output value (spec §4.1: "inside
the bound selects the second candidate, outside selects the first, with
cubic smoothing across the falloff band").  `cv` is the control value, `v0`
and `v1` the two candidate source values; the smoothing band of width
`2·falloff` is centered on each bound edge. -/
def selectValue (low high falloff cv v0 v1 : ℚ) : ℚ :=
  if 0 < falloff then
    if cv < low - falloff then v0
    else if cv < low + falloff then
      linearInterp v0 v1 (sCurve3 ((cv - (low - falloff)) / (2 * falloff)))
    else if cv < high - falloff then v1
    else if cv < high + falloff then
      linearInterp v1 v0 (sCurve3 ((cv - (high - falloff)) / (2 * falloff)))
    else v0
  else
    if cv < low ∨ high < cv then v0 else v1

/-- Modelled from the spec: the module graph of spec §3/§4.1, absent from
`src/`.  A closed set of tagged variants covering the spec's four node
categories: generators (`const`, `gen`), transformers (`translate`,
`scalePoint`, `turbulence`), combiners (`add`, `select`) and adjusters
(`scaleBias`).  An unset source slot is the `empty` node, which fails when
evaluated (spec §3: "each either unset (error if evaluated) or bound"). -/
inductive Module where
  | empty
  | const (v : ℚ)
  | gen (seed : ℤ) (freq : ℚ)
  | translate (dx dy dz : ℚ) (src : Module)
  | scalePoint (sx sy sz : ℚ) (src : Module)
  | scaleBias (scale bias : ℚ) (src : Module)
  | turbulence (seed : ℤ) (freq power : ℚ) (rough : ℕ) (src : Module)
  | add (s0 s1 : Module)
  | select (low high falloff : ℚ) (ctrl s0 s1 : Module)
deriving DecidableEq, Repr

/-- Evaluation failure: an unset source slot was evaluated
(spec §7 `InvalidParameter`). -/
inductive EvalErr where
  | noModule
deriving DecidableEq, Repr

/-- Modelled from the spec: module-graph evaluation (spec §4.1
`evaluate(point) -> scalar`), with the node's state threaded through the
call so that mutation of hidden state would be observable: the result pairs
the scalar (or the unset-slot error) with the node as it stands after the
evaluation.  Sources are evaluated on demand (spec §4.1: "a node evaluates
its sources on demand"). -/
def evalS : Module → ℚ → ℚ → ℚ → Except EvalErr ℚ × Module
  | .empty, _, _, _ => (.error .noModule, .empty)
  | .const v, _, _, _ => (.ok v, .const v)
  | .gen seed freq, x, y, z =>
    (.ok (valueNoise seed (x * freq) (y * freq) (z * freq)), .gen seed freq)
  | .translate dx dy dz src, x, y, z =>
    let r := evalS src (x + dx) (y + dy) (z + dz)
    (r.1, .translate dx dy dz r.2)
  | .scalePoint sx sy sz src, x, y, z =>
    let r := evalS src (x * sx) (y * sy) (z * sz)
    (r.1, .scalePoint sx sy sz r.2)
  | .scaleBias scale bias src, x, y, z =>
    let r := evalS src x y z
    (r.1.map (fun v => v * scale + bias), .scaleBias scale bias r.2)
  | .turbulence seed freq power rough src, x, y, z =>
    let x1 := x + power * octaveNoise seed rough (x * freq) (y * freq) (z * freq)
    let y1 := y + power * octaveNoise (seed + 100) rough (x * freq) (y * freq) (z * freq)
    let z1 := z + power * octaveNoise (seed + 200) rough (x * freq) (y * freq) (z * freq)
    let r := evalS src x1 y1 z1
    (r.1, .turbulence seed freq power rough r.2)
  | .add s0 s1, x, y, z =>
    let r0 := evalS s0 x y z
    match r0.1 with
    | .error e => (.error e, .add r0.2 s1)
    | .ok v0 =>
      let r1 := evalS s1 x y z
      (r1.1.map (fun v1 => v0 + v1), .add r0.2 r1.2)
  | .select low high falloff ctrl s0 s1, x, y, z =>
    let rc := evalS ctrl x y z
    match rc.1 with
    | .error e => (.error e, .select low high falloff rc.2 s0 s1)
    | .ok cv =>
      if (0 < falloff ∧ ¬ cv < low - falloff ∧ cv < high + falloff)
          ∨ (¬ 0 < falloff ∧ ¬ (cv < low ∨ high < cv)) then
        -- the falloff band or the inside of the bound: source 1 is needed
        if (0 < falloff ∧ low + falloff ≤ cv ∧ cv < high - falloff)
            ∨ ¬ 0 < falloff then
          -- strictly inside: only source 1 is evaluated
          let r1 := evalS s1 x y z
          (r1.1, .select low high falloff rc.2 s0 r1.2)
        else
          -- falloff band: both candidates are evaluated and blended
          let r0 := evalS s0 x y z
          match r0.1 with
          | .error e => (.error e, .select low high falloff rc.2 r0.2 s1)
          | .ok v0 =>
            let r1 := evalS s1 x y z
            (r1.1.map (fun v1 => selectValue low high falloff cv v0 v1),
             .select low high falloff rc.2 r0.2 r1.2)
      else
        -- outside the bound: only source 0 is evaluated
        let r0 := evalS s0 x y z
        (r0.1, .select low high falloff rc.2 r0.2 s1)

/-- The scalar outcome of evaluating a module at a point. -/
def evalV (m : Module) (x y z : ℚ) : Except EvalErr ℚ :=
  (evalS m x y z).1

/-! ## Noise maps and the planar map builder (spec §3 NoiseMap, §4.2) -/

/-- Modelled from the spec: `utils::NoiseMap`, absent from `src/` — a
`width × height` grid of scalar samples, row-major (spec §3). -/
structure NoiseMap where
  width : ℕ
  height : ℕ
  values : List (List ℚ)
deriving DecidableEq, Repr

/-- Read one grid cell (row `r`, column `c`). -/
def NoiseMap.getVal (m : NoiseMap) (r c : ℕ) : ℚ :=
  (m.values.getD r []).getD c 0

/-- Configuration of `utils::NoiseMapBuilderPlane` (spec §4.2, §6): bounds
rectangle, destination size, seamless flag.  Destination sizes are integers
so that the invalid request `dest_width <= 0 || dest_height <= 0` of
spec §4.2 is expressible. -/
structure PlaneCfg where
  lowerX : ℚ
  upperX : ℚ
  lowerZ : ℚ
  upperZ : ℚ
  destWidth : ℤ
  destHeight : ℤ
  seamless : Bool
deriving DecidableEq, Repr

/-- Build failure (spec §4.2 / §7 `InvalidParameter`): non-positive
destination dimensions. -/
inductive BuildErr where
  | invalidDims
deriving DecidableEq, Repr

/-- The x coordinate sampled for destination column `c`: the pixel columns
map linearly onto the closed interval `[lowerX, upperX]` (spec §4.2: "maps
each destination pixel (px,py) linearly to (x,z) inside the bounds
rectangle"); a single-column map samples at `lowerX` (spec §4.2 edge case). -/
def planarX (cfg : PlaneCfg) (c : ℕ) : ℚ :=
  cfg.lowerX + c * (cfg.upperX - cfg.lowerX) / ((cfg.destWidth : ℚ) - 1)

/-- The z coordinate sampled for destination row `r`, mapped like
`planarX`. -/
def planarZ (cfg : PlaneCfg) (r : ℕ) : ℚ :=
  cfg.lowerZ + r * (cfg.upperZ - cfg.lowerZ) / ((cfg.destHeight : ℚ) - 1)

/-- Modelled from the spec: one seamless planar sample (spec §4.2: "a
bilinear blend of the direct sample and three additional samples taken as if
the coordinate wrapped around the bounds rectangle by one full period in x,
z, and both — blend weights derived from the pixel's fractional distance to
the tile edge").  `f` is the module graph's evaluation function
(spec §4.1: evaluation is a pure function of the point). -/
def seamlessValue (cfg : PlaneCfg) (f : ℚ → ℚ → ℚ → ℚ) (x z : ℚ) : ℚ :=
  let xExtent := cfg.upperX - cfg.lowerX
  let zExtent := cfg.upperZ - cfg.lowerZ
  let swValue := f x 0 z
  let seValue := f (x + xExtent) 0 z
  let nwValue := f x 0 (z + zExtent)
  let neValue := f (x + xExtent) 0 (z + zExtent)
  let xBlend := 1 - (x - cfg.lowerX) / xExtent
  let zBlend := 1 - (z - cfg.lowerZ) / zExtent
  linearInterp (linearInterp swValue seValue xBlend)
    (linearInterp nwValue neValue xBlend) zBlend

/-- One planar sample: the direct module value, or the seamless blend when
the seamless flag is set (spec §4.2; the plane fixes `y = 0`). -/
def planarValue (cfg : PlaneCfg) (f : ℚ → ℚ → ℚ → ℚ) (x z : ℚ) : ℚ :=
  if cfg.seamless then seamlessValue cfg f x z else f x 0 z

/-- Modelled from the spec: `utils::NoiseMapBuilderPlane::Build`, absent
from `src/` (spec §4.2 contract
`build(module_graph, bounds, dest_width, dest_height, seamless_flag) ->
NoiseMap`).  The module graph is represented by its evaluation function `f`.
Non-positive destination dimensions are rejected before any sampling
(spec §4.2 Failure; spec §7 "fail fast, not mid-sample"). -/
def buildPlane (cfg : PlaneCfg) (f : ℚ → ℚ → ℚ → ℚ) : Except BuildErr NoiseMap :=
  if cfg.destWidth ≤ 0 ∨ cfg.destHeight ≤ 0 then
    .error .invalidDims
  else
    .ok
      { width := cfg.destWidth.toNat
        height := cfg.destHeight.toNat
        values :=
          (List.range cfg.destHeight.toNat).map fun r =>
            (List.range cfg.destWidth.toNat).map fun c =>
              planarValue cfg f (planarX cfg c) (planarZ cfg r) }

/-! ## Renderer (spec §4.3), lighting disabled -/

/-- Modelled from the spec: `utils::Image`, absent from `src/` — a grid of
RGBA8 pixels (spec §3). -/
structure Image where
  width : ℕ
  height : ℕ
  pixels : List (List Color)
deriving DecidableEq, Repr

/-- Read one pixel (row `r`, column `c`). -/
def Image.getPixel (img : Image) (r c : ℕ) : Color :=
  (img.pixels.getD r []).getD c ⟨0, 0, 0, 0⟩

/-- Modelled from the spec: `utils::RendererImage::Render` with lighting
disabled, absent from `src/` (spec §4.3: per pixel, look up the scalar value
in the NoiseMap and take the gradient color; "disabled lighting returns the
flat gradient color unmodified"; "Output pixel buffer dimensions always
equal the source NoiseMap's dimensions"). -/
def renderFlat (g : Gradient) (m : NoiseMap) : Image :=
  { width := m.width
    height := m.height
    pixels :=
      (List.range m.height).map fun r =>
        (List.range m.width).map fun c =>
          getColor g (m.getVal r c) }

/-! ## Builder re-use over bound destination maps (texturesky.cpp) -/

/-- A store of destination noise maps addressed by slot: the two
`utils::NoiseMap` locals of `texturesky.cpp`'s `CreatePlanarTexture`, to
which the shared builder object is bound in turn via `SetDestNoiseMap`. -/
def MapStore := ℕ → NoiseMap

/-- Modelled from the spec: one `SetSourceModule`/`SetDestNoiseMap`/`Build`
round of the shared builder object — the build writes its result into the
currently bound destination slot and nothing else; a failed validation
leaves every destination untouched (spec §4.2, §7). -/
def buildInto (slot : ℕ) (cfg : PlaneCfg) (f : ℚ → ℚ → ℚ → ℚ)
    (store : MapStore) : MapStore :=
  match buildPlane cfg f with
  | .ok m => Function.update store slot m
  | .error _ => store

/-! ## Spherical map builder (spec §4.2 Spherical) -/

/-- Degrees to radians. -/
noncomputable def degToRad (a : ℝ) : ℝ :=
  a * Real.pi / 180

/-- Modelled from the spec: the standard spherical-to-Cartesian conversion
of spec §4.2 ("converts (lat,lon) to a unit-sphere Cartesian point via
standard spherical-to-Cartesian conversion"); angles in degrees. -/
noncomputable def latLonToXYZ (lat lon : ℝ) : ℝ × ℝ × ℝ :=
  let r := Real.cos (degToRad lat)
  (r * Real.cos (degToRad lon), Real.sin (degToRad lat), r * Real.sin (degToRad lon))

/-- Modelled from the spec: one spherical sample — the module graph's
evaluation function applied to the unit-sphere point of the given latitude
and longitude (spec §4.2 Spherical). -/
noncomputable def sphereGetValue (f : ℝ → ℝ → ℝ → ℝ) (lat lon : ℝ) : ℝ :=
  let p := latLonToXYZ lat lon
  f p.1 p.2.1 p.2.2

/-- Configuration of `utils::NoiseMapBuilderSphere` (spec §4.2, §6):
latitude/longitude bounds in degrees and the destination size. -/
structure SphereCfg where
  southLat : ℝ
  northLat : ℝ
  westLon : ℝ
  eastLon : ℝ
  destWidth : ℕ
  destHeight : ℕ

/-- The latitude sampled for destination row `r`: rows map linearly onto the
closed interval `[southLat, northLat]` (spec §4.2: "maps each destination
row to a latitude in [lat0,lat1]"), so a full-range build reaches the poles
(spec §4.2: "Poles (lat = ±90°) are valid"). -/
noncomputable def sphereLatAt (cfg : SphereCfg) (r : ℕ) : ℝ :=
  cfg.southLat + r * (cfg.northLat - cfg.southLat) / ((cfg.destHeight : ℝ) - 1)

/-- The longitude sampled for destination column `c`, mapped like
`sphereLatAt` onto `[westLon, eastLon]`. -/
noncomputable def sphereLonAt (cfg : SphereCfg) (c : ℕ) : ℝ :=
  cfg.westLon + c * (cfg.eastLon - cfg.westLon) / ((cfg.destWidth : ℝ) - 1)

/-- Modelled from the spec: the scalar written by
`utils::NoiseMapBuilderSphere::Build` into grid cell (row `r`, column `c`)
(spec §4.2 Spherical). -/
noncomputable def sphereBuildValue (cfg : SphereCfg) (f : ℝ → ℝ → ℝ → ℝ)
    (r c : ℕ) : ℝ :=
  sphereGetValue f (sphereLatAt cfg r) (sphereLonAt cfg c)

/-! ## The end-to-end constant-module scenario (spec §8) -/

/-- The 4×4 planar build request of the end-to-end scenario of spec §8:
bounds (-1,1,-1,1), seamless disabled. -/
def cfgScenario : PlaneCfg :=
  ⟨-1, 1, -1, 1, 4, 4, false⟩

/-- The constant-value generator module of the scenario: always
returns 0.5. -/
def constHalf : ℚ → ℚ → ℚ → ℚ :=
  fun _ _ _ => 1 / 2

/-- The two-point gradient `{(-1,black),(1,white)}` of the scenario. -/
def gradBW : Gradient :=
  [(-1, ⟨0, 0, 0, 255⟩), (1, ⟨255, 255, 255, 255⟩)]

/-- The NoiseMap built by the scenario's planar build. -/
def mapScenario : NoiseMap :=
  (buildPlane cfgScenario constHalf).toOption.getD ⟨0, 0, []⟩

/-- The image rendered from the scenario's NoiseMap through `gradBW` with
lighting disabled. -/
def imgScenario : Image :=
  renderFlat gradBW mapScenario

/-! ## A concrete seamless build -/

/-- A concrete 3×3 seamless planar build request over bounds
(-1,1,-1,1). -/
def cfgSeamW : PlaneCfg :=
  ⟨-1, 1, -1, 1, 3, 3, true⟩

/-- A concrete asymmetric evaluation function for the seamless build. -/
def fSeamW : ℚ → ℚ → ℚ → ℚ :=
  fun x _ z => x * x * z + x

/-- The NoiseMap produced by the concrete seamless build. -/
def mapSeamW : NoiseMap :=
  (buildPlane cfgSeamW fSeamW).toOption.getD ⟨0, 0, []⟩

/-! ## Channel-blend lemmas -/

theorem blendChannel_eq_floor (c0 c1 : ℕ) (a : ℚ) :
    blendChannel c0 c1 a = (⌊(c0 : ℚ) + a * ((c1 : ℚ) - (c0 : ℚ))⌋).toNat := by
  unfold blendChannel
  congr 2
  ring

theorem blendChannel_zero (c0 c1 : ℕ) : blendChannel c0 c1 0 = c0 := by
  rw [blendChannel_eq_floor]
  simp

theorem blendChannel_one (c0 c1 : ℕ) : blendChannel c0 c1 1 = c1 := by
  rw [blendChannel_eq_floor]
  simp

theorem blendChannel_mono (c0 c1 : ℕ) (hch : c0 ≤ c1) {a1 a2 : ℚ} (ha : a1 ≤ a2) :
    blendChannel c0 c1 a1 ≤ blendChannel c0 c1 a2 := by
  rw [blendChannel_eq_floor, blendChannel_eq_floor]
  apply Int.toNat_le_toNat
  apply Int.floor_le_floor
  have hd : (0 : ℚ) ≤ (c1 : ℚ) - (c0 : ℚ) := by
    have : (c0 : ℚ) ≤ (c1 : ℚ) := by exact_mod_cast hch
    linarith
  have := mul_le_mul_of_nonneg_right ha hd
  linarith

theorem blendChannel_anti (c0 c1 : ℕ) (hch : c1 ≤ c0) {a1 a2 : ℚ} (ha : a1 ≤ a2) :
    blendChannel c0 c1 a2 ≤ blendChannel c0 c1 a1 := by
  rw [blendChannel_eq_floor, blendChannel_eq_floor]
  apply Int.toNat_le_toNat
  apply Int.floor_le_floor
  have hd : (c1 : ℚ) - (c0 : ℚ) ≤ 0 := by
    have : (c1 : ℚ) ≤ (c0 : ℚ) := by exact_mod_cast hch
    linarith
  have := mul_le_mul_of_nonpos_right ha hd
  linarith

theorem chan_interpColor (p0 p1 : GradPoint) (q : ℚ) (j : Fin 4) :
    (interpColor p0 p1 q).chan j
      = blendChannel (p0.2.chan j) (p1.2.chan j) ((q - p0.1) / (p1.1 - p0.1)) := by
  fin_cases j <;> rfl

theorem interpColor_left (p0 p1 : GradPoint) : interpColor p0 p1 p0.1 = p0.2 := by
  unfold interpColor
  simp [sub_self, zero_div, blendChannel_zero]

theorem interpColor_right (p0 p1 : GradPoint) (h : p1.1 - p0.1 ≠ 0) :
    interpColor p0 p1 p1.1 = p1.2 := by
  unfold interpColor
  rw [div_self h]
  simp [blendChannel_one]

/-! ## Gradient lookup lemmas -/

theorem sorted_head_le {b : GradPoint} {t : Gradient} (hs : SortedGradient (b :: t))
    {x : GradPoint} (hx : x ∈ b :: t) : b.1 ≤ x.1 := by
  rcases List.mem_cons.mp hx with rfl | hx
  · exact le_refl _
  · exact le_of_lt ((List.pairwise_cons.mp hs).1 x hx)

theorem getColor_head (p : GradPoint) (rest : Gradient) {q : ℚ} (h : q ≤ p.1) :
    getColor (p :: rest) q = p.2 := by
  cases rest with
  | nil => rfl
  | cons p1 t => simp [getColor, h]

theorem getColor_shift (p0 p1 : GradPoint) (rest : Gradient) (q : ℚ)
    (h01 : p0.1 < p1.1) (hq : p1.1 ≤ q) :
    getColor (p0 :: p1 :: rest) q = getColor (p1 :: rest) q := by
  have h0 : ¬ q ≤ p0.1 := by push_neg; linarith
  rcases eq_or_lt_of_le hq with heq | hlt
  · subst heq
    rw [getColor_head p1 rest (le_refl _)]
    simp only [getColor, if_neg h0, if_pos (le_refl p1.1)]
    exact interpColor_right p0 p1 (by intro hc; exact absurd (sub_eq_zero.mp hc).symm (ne_of_lt h01))
  · have h1 : ¬ q ≤ p1.1 := by push_neg; linarith
    simp [getColor, h0, h1]

theorem getColor_append_drop (pre : Gradient) (b : GradPoint) (t : Gradient) (q : ℚ)
    (hs : SortedGradient (pre ++ b :: t)) (hq : b.1 ≤ q) :
    getColor (pre ++ b :: t) q = getColor (b :: t) q := by
  induction pre with
  | nil => rfl
  | cons a pre ih =>
    have hs0 : SortedGradient (a :: (pre ++ b :: t)) := by
      rw [List.cons_append] at hs
      exact hs
    have hs' : SortedGradient (pre ++ b :: t) := List.Pairwise.of_cons hs0
    rcases hpre : pre ++ b :: t with _ | ⟨c, t2⟩
    · exact absurd hpre (by simp)
    · have hac : a.1 < c.1 := by
        apply (List.pairwise_cons.mp hs0).1
        show c ∈ pre ++ b :: t
        rw [hpre]
        exact List.mem_cons_self c t2
      have hcb : c.1 ≤ b.1 := by
        have hb : b ∈ pre ++ b :: t := by simp
        have hsc : SortedGradient (c :: t2) := by rw [← hpre]; exact hs'
        rw [hpre] at hb
        exact sorted_head_le hsc hb
      have step : getColor (a :: (pre ++ b :: t)) q = getColor (pre ++ b :: t) q := by
        rw [hpre]
        exact getColor_shift a c t2 q hac (le_trans hcb hq)
      rw [List.cons_append, step]
      exact ih hs'

theorem getColor_at_point (pre : Gradient) (p : GradPoint) (post : Gradient)
    (hs : SortedGradient (pre ++ p :: post)) :
    getColor (pre ++ p :: post) p.1 = p.2 := by
  rw [getColor_append_drop pre p post p.1 hs (le_refl _)]
  exact getColor_head p post (le_refl _)

theorem getColor_segment_eq (p0 p1 : GradPoint) (rest : Gradient) (q : ℚ) (j : Fin 4)
    (h01 : p0.1 < p1.1) (hq0 : p0.1 ≤ q) (hq1 : q ≤ p1.1) :
    (getColor (p0 :: p1 :: rest) q).chan j
      = blendChannel (p0.2.chan j) (p1.2.chan j) ((q - p0.1) / (p1.1 - p0.1)) := by
  rcases eq_or_lt_of_le hq0 with heq | hlt
  · rw [← heq]
    rw [getColor_head p0 (p1 :: rest) (le_refl _)]
    rw [sub_self, zero_div, blendChannel_zero]
  · have h0 : ¬ q ≤ p0.1 := by push_neg; linarith
    simp only [getColor, if_neg h0, if_pos hq1]
    exact chan_interpColor p0 p1 q j

/-- C5: for every gradient and every pair of adjacent control points, each
color channel of the interpolated color is monotonic in the query position
on the interval between them, in the direction of that channel's values at
the two points; and querying the gradient exactly at any control point's
position returns exactly that control point's color. -/
theorem gradient_interp_monotone_and_exact (g : Gradient) (hs : SortedGradient g) :
    (∀ pre (p0 p1 : GradPoint) post (j : Fin 4) (q1 q2 : ℚ),
        g = pre ++ p0 :: p1 :: post →
        p0.1 ≤ q1 → q1 ≤ q2 → q2 ≤ p1.1 →
        ((p0.2.chan j ≤ p1.2.chan j →
            (getColor g q1).chan j ≤ (getColor g q2).chan j) ∧
         (p1.2.chan j ≤ p0.2.chan j →
            (getColor g q2).chan j ≤ (getColor g q1).chan j))) ∧
    (∀ pre (p : GradPoint) post, g = pre ++ p :: post → getColor g p.1 = p.2) := by
  constructor
  · rintro pre p0 p1 post j q1 q2 rfl hq0 hq12 hq2
    have h01 : p0.1 < p1.1 := by
      have hpost : SortedGradient (p0 :: p1 :: post) := (List.pairwise_append.mp hs).2.1
      exact (List.pairwise_cons.mp hpost).1 p1 (List.mem_cons_self p1 post)
    have hdrop1 : getColor (pre ++ p0 :: p1 :: post) q1 = getColor (p0 :: p1 :: post) q1 :=
      getColor_append_drop pre p0 (p1 :: post) q1 hs hq0
    have hdrop2 : getColor (pre ++ p0 :: p1 :: post) q2 = getColor (p0 :: p1 :: post) q2 :=
      getColor_append_drop pre p0 (p1 :: post) q2 hs (le_trans hq0 hq12)
    rw [hdrop1, hdrop2,
      getColor_segment_eq p0 p1 post q1 j h01 hq0 (le_trans hq12 hq2),
      getColor_segment_eq p0 p1 post q2 j h01 (le_trans hq0 hq12) hq2]
    have hΔ : 0 < p1.1 - p0.1 := by linarith
    have halpha : (q1 - p0.1) / (p1.1 - p0.1) ≤ (q2 - p0.1) / (p1.1 - p0.1) := by
      gcongr <;> linarith
    exact ⟨fun hch => blendChannel_mono _ _ hch halpha,
           fun hch => blendChannel_anti _ _ hch halpha⟩
  · rintro pre p post rfl
    exact getColor_at_point pre p post hs

/-- C5 witness: the theorem instantiated at the slime palette of
`textureslime.cpp` — the green channel grows between the control points at
positions -1 and 0, and the query at position 0 reproduces that control
point's color exactly. -/
theorem gradient_interp_monotone_and_exact_witness :
    (getColor [((-1 : ℚ), ⟨160, 64, 42, 255⟩), (0, ⟨64, 192, 64, 255⟩),
        (1, ⟨128, 255, 128, 255⟩)] (-3/4)).chan 1
      ≤ (getColor [((-1 : ℚ), ⟨160, 64, 42, 255⟩), (0, ⟨64, 192, 64, 255⟩),
        (1, ⟨128, 255, 128, 255⟩)] (-1/4)).chan 1 ∧
    getColor [((-1 : ℚ), ⟨160, 64, 42, 255⟩), (0, ⟨64, 192, 64, 255⟩),
        (1, ⟨128, 255, 128, 255⟩)] 0 = ⟨64, 192, 64, 255⟩ := by
  have h := gradient_interp_monotone_and_exact
    [((-1 : ℚ), ⟨160, 64, 42, 255⟩), (0, ⟨64, 192, 64, 255⟩), (1, ⟨128, 255, 128, 255⟩)]
    (by norm_num [List.pairwise_cons])
  exact ⟨(h.1 [] ((-1 : ℚ), ⟨160, 64, 42, 255⟩) (0, ⟨64, 192, 64, 255⟩)
      [(1, ⟨128, 255, 128, 255⟩)] 1 (-3/4) (-1/4) rfl (by norm_num) (by norm_num)
      (by norm_num)).1 (by decide),
    h.2 [((-1 : ℚ), ⟨160, 64, 42, 255⟩)] (0, ⟨64, 192, 64, 255⟩)
      [(1, ⟨128, 255, 128, 255⟩)] rfl⟩

/-- C6: for a gradient with at least one control point, a query strictly
below the first control point's position returns the first control point's
color, and a query strictly above the last control point's position returns
the last control point's color. -/
theorem gradient_clamp_endpoints (g : Gradient) (p0 plast : GradPoint)
    (post pre : Gradient) (q1 q2 : ℚ) (hs : SortedGradient g)
    (hhead : g = p0 :: post) (hlastd : g = pre ++ [plast])
    (hq1 : q1 < p0.1) (hq2 : plast.1 < q2) :
    getColor g q1 = p0.2 ∧ getColor g q2 = plast.2 := by
  constructor
  · rw [hhead]
    exact getColor_head p0 post (le_of_lt hq1)
  · rw [hlastd]
    rw [getColor_append_drop pre plast [] q2 (hlastd ▸ hs) (le_of_lt hq2)]
    rfl

/-- C6 witness: the theorem instantiated at the water palette of
`texturesky.cpp`, with queries at -2 and 7. -/
theorem gradient_clamp_endpoints_witness :
    getColor [((-1 : ℚ), ⟨48, 64, 192, 255⟩), (1/2, ⟨96, 192, 255, 255⟩),
        (1, ⟨255, 255, 255, 255⟩)] (-2) = ⟨48, 64, 192, 255⟩ ∧
    getColor [((-1 : ℚ), ⟨48, 64, 192, 255⟩), (1/2, ⟨96, 192, 255, 255⟩),
        (1, ⟨255, 255, 255, 255⟩)] 7 = ⟨255, 255, 255, 255⟩ :=
  gradient_clamp_endpoints
    [((-1 : ℚ), ⟨48, 64, 192, 255⟩), (1/2, ⟨96, 192, 255, 255⟩), (1, ⟨255, 255, 255, 255⟩)]
    ((-1 : ℚ), ⟨48, 64, 192, 255⟩) (1, ⟨255, 255, 255, 255⟩)
    [(1/2, ⟨96, 192, 255, 255⟩), (1, ⟨255, 255, 255, 255⟩)]
    [((-1 : ℚ), ⟨48, 64, 192, 255⟩), (1/2, ⟨96, 192, 255, 255⟩)]
    (-2) 7 (by norm_num [List.pairwise_cons]) rfl rfl (by norm_num) (by norm_num)

/-! ## Gradient insertion invariant -/

theorem mem_insertPoint {l : Gradient} {p x : GradPoint} (hx : x ∈ insertPoint l p) :
    x = p ∨ x ∈ l := by
  induction l with
  | nil => simpa [insertPoint] using hx
  | cons q rest ih =>
    unfold insertPoint at hx
    split_ifs at hx with h1 h2
    · rcases List.mem_cons.mp hx with rfl | hx
      · exact .inl rfl
      · exact .inr hx
    · rcases List.mem_cons.mp hx with rfl | hx
      · exact .inl rfl
      · exact .inr (List.mem_cons_of_mem q hx)
    · rcases List.mem_cons.mp hx with rfl | hx
      · exact .inr (List.mem_cons_self _ _)
      · rcases ih hx with h | h
        · exact .inl h
        · exact .inr (List.mem_cons_of_mem q h)

theorem insertPoint_sorted {l : Gradient} (p : GradPoint) (hs : SortedGradient l) :
    SortedGradient (insertPoint l p) := by
  induction l with
  | nil => simp [insertPoint]
  | cons q rest ih =>
    obtain ⟨hq, hrest⟩ := List.pairwise_cons.mp hs
    unfold insertPoint
    split_ifs with h1 h2
    · refine List.pairwise_cons.mpr ⟨?_, hs⟩
      intro x hx
      rcases List.mem_cons.mp hx with rfl | hx
      · exact h1
      · exact lt_trans h1 (hq x hx)
    · refine List.pairwise_cons.mpr ⟨?_, hrest⟩
      intro x hx
      rw [h2]
      exact hq x hx
    · refine List.pairwise_cons.mpr ⟨?_, ih hrest⟩
      intro x hx
      rcases mem_insertPoint hx with rfl | hx
      · exact lt_of_le_of_ne (not_lt.mp h1) (fun hc => h2 hc.symm)
      · exact hq x hx

/-- C9: after every sequence of `clear()` and
`add_control_point(position, color)` calls, in any order of positions, the
stored control-point positions are strictly increasing. -/
theorem gradient_positions_strictly_increasing (ops : List GradOp) :
    SortedGradient (applyGradOps ops) := by
  suffices h : ∀ g, SortedGradient g → SortedGradient (List.foldl applyGradOp g ops) by
    exact h [] (by simp)
  induction ops with
  | nil => exact fun g hg => hg
  | cons op ops ih =>
    intro g hg
    rw [List.foldl_cons]
    apply ih
    cases op with
    | clear => simp [applyGradOp]
    | addPoint pos color => exact insertPoint_sorted _ hg

/-! ## Purity of module evaluation -/

theorem evalS_state (m : Module) (x y z : ℚ) : (evalS m x y z).2 = m := by
  induction m generalizing x y z with
  | empty => rfl
  | const v => rfl
  | gen s f => rfl
  | translate dx dy dz src ih => simp [evalS, ih]
  | scalePoint sx sy sz src ih => simp [evalS, ih]
  | scaleBias sc b src ih => simp [evalS, ih]
  | turbulence s f p rough src ih => simp [evalS, ih]
  | add s0 s1 ih0 ih1 =>
    simp only [evalS]
    rcases h0 : (evalS s0 x y z).1 with e | v0 <;> simp [h0, ih0, ih1]
  | select low high fo c s0 s1 ihc ih0 ih1 =>
    simp only [evalS]
    rcases hc : (evalS c x y z).1 with e | cv
    · simp [hc, ihc]
    · simp only [hc]
      split_ifs with hA hB
      · simp [ihc, ih1]
      · rcases h0 : (evalS s0 x y z).1 with e0 | v0 <;> simp [h0, ihc, ih0, ih1]
      · simp [ihc, ih0]

/-- C1: module-graph evaluation at a fixed point is deterministic and
mutates no state: the module that comes out of an evaluation is
bit-identical to the module that went in, and a second evaluation starting
from the post-evaluation state returns the identical scalar outcome. -/
theorem module_eval_pure_deterministic (m : Module) (x y z : ℚ) :
    (evalS m x y z).2 = m ∧
      (evalS ((evalS m x y z).2) x y z).1 = (evalS m x y z).1 := by
  refine ⟨evalS_state m x y z, ?_⟩
  rw [evalS_state m x y z]

/-! ## Fail-fast dimension validation -/

/-- C8: a planar build request with non-positive destination width or height
fails with the invalid-dimension error before any sampling: no noise map is
produced and the outcome is independent of the source module's evaluation
function, so no module evaluation occurs and no grid cell is written. -/
theorem buildPlane_invalid_dims (cfg : PlaneCfg) (f g : ℚ → ℚ → ℚ → ℚ)
    (h : cfg.destWidth ≤ 0 ∨ cfg.destHeight ≤ 0) :
    buildPlane cfg f = .error .invalidDims ∧ buildPlane cfg f = buildPlane cfg g := by
  constructor <;> simp [buildPlane, h]

/-- C8 witness: the theorem instantiated at a 0×5 build request and two
distinct evaluation functions. -/
theorem buildPlane_invalid_dims_witness :
    ((0 : ℤ) ≤ 0 ∨ (5 : ℤ) ≤ 0) ∧
    buildPlane ⟨-1, 1, -1, 1, 0, 5, false⟩ (fun _ _ _ => 0) = .error .invalidDims ∧
    buildPlane ⟨-1, 1, -1, 1, 0, 5, false⟩ (fun _ _ _ => 0)
      = buildPlane ⟨-1, 1, -1, 1, 0, 5, false⟩ (fun _ _ _ => 1) :=
  ⟨Or.inl (le_refl 0),
   buildPlane_invalid_dims ⟨-1, 1, -1, 1, 0, 5, false⟩ (fun _ _ _ => 0) (fun _ _ _ => 1)
     (Or.inl (le_refl 0))⟩

/-! ## Frame property of builder re-use -/

/-- C10: re-using the builder for a second build against a different bound
destination leaves the destination of the earlier build untouched: its
dimensions and every cell value are unchanged. -/
theorem builder_rebind_frame (a b : ℕ) (cfg1 cfg2 : PlaneCfg)
    (f1 f2 : ℚ → ℚ → ℚ → ℚ) (store : MapStore) (hab : a ≠ b) :
    ((buildInto b cfg2 f2 (buildInto a cfg1 f1 store)) a).width
        = ((buildInto a cfg1 f1 store) a).width ∧
    ((buildInto b cfg2 f2 (buildInto a cfg1 f1 store)) a).height
        = ((buildInto a cfg1 f1 store) a).height ∧
    ∀ r c, ((buildInto b cfg2 f2 (buildInto a cfg1 f1 store)) a).getVal r c
        = ((buildInto a cfg1 f1 store) a).getVal r c := by
  have key : (buildInto b cfg2 f2 (buildInto a cfg1 f1 store)) a
      = (buildInto a cfg1 f1 store) a := by
    unfold buildInto
    cases hb2 : buildPlane cfg2 f2 with
    | error e => rfl
    | ok m => exact Function.update_noteq hab _ _
  exact ⟨congrArg NoiseMap.width key, congrArg NoiseMap.height key,
    fun r c => by rw [key]⟩

/-- C10 witness: the theorem instantiated at two concrete builds into slots
0 and 1 of a two-map store. -/
theorem builder_rebind_frame_witness :
    (0 : ℕ) ≠ 1 ∧
    ((buildInto 1 ⟨0, 1, 0, 1, 2, 2, false⟩ (fun _ _ _ => 7)
        (buildInto 0 ⟨-1, 1, -1, 1, 2, 2, false⟩ (fun _ _ _ => 3)
          (fun _ => ⟨0, 0, []⟩))) 0).getVal 1 0
      = ((buildInto 0 ⟨-1, 1, -1, 1, 2, 2, false⟩ (fun _ _ _ => 3)
          (fun _ => ⟨0, 0, []⟩)) 0).getVal 1 0 :=
  ⟨Nat.zero_ne_one,
   (builder_rebind_frame 0 1 ⟨-1, 1, -1, 1, 2, 2, false⟩ ⟨0, 1, 0, 1, 2, 2, false⟩
     (fun _ _ _ => 3) (fun _ _ _ => 7) (fun _ => ⟨0, 0, []⟩) Nat.zero_ne_one).2.2 1 0⟩

/-! ## Seamless planar wrap continuity -/

theorem seamlessValue_x_wrap (cfg : PlaneCfg) (f : ℚ → ℚ → ℚ → ℚ) (z : ℚ) :
    seamlessValue cfg f cfg.lowerX z = seamlessValue cfg f cfg.upperX z := by
  simp only [seamlessValue, linearInterp]
  have e1 : cfg.lowerX + (cfg.upperX - cfg.lowerX) = cfg.upperX := by ring
  rw [e1]
  rcases eq_or_ne cfg.upperX cfg.lowerX with h | h
  · rw [h, (by ring : cfg.lowerX + (cfg.lowerX - cfg.lowerX) = cfg.lowerX)]
  · have hX : cfg.upperX - cfg.lowerX ≠ 0 := sub_ne_zero.mpr h
    rw [sub_self, zero_div, div_self hX]
    ring

theorem seamlessValue_z_wrap (cfg : PlaneCfg) (f : ℚ → ℚ → ℚ → ℚ) (x : ℚ) :
    seamlessValue cfg f x cfg.lowerZ = seamlessValue cfg f x cfg.upperZ := by
  simp only [seamlessValue, linearInterp]
  have e1 : cfg.lowerZ + (cfg.upperZ - cfg.lowerZ) = cfg.upperZ := by ring
  rw [e1]
  rcases eq_or_ne cfg.upperZ cfg.lowerZ with h | h
  · rw [h, (by ring : cfg.lowerZ + (cfg.lowerZ - cfg.lowerZ) = cfg.lowerZ)]
  · have hZ : cfg.upperZ - cfg.lowerZ ≠ 0 := sub_ne_zero.mpr h
    rw [sub_self, zero_div, div_self hZ]
    ring

theorem getD_range_map {α : Type} (g : ℕ → α) (n i : ℕ) (d : α) (h : i < n) :
    ((List.range n).map g).getD i d = g i := by
  rw [List.getD_eq_getElem?_getD]
  simp [List.getElem?_range h]

theorem planarX_zero (cfg : PlaneCfg) : planarX cfg 0 = cfg.lowerX := by
  simp [planarX]

theorem planarZ_zero (cfg : PlaneCfg) : planarZ cfg 0 = cfg.lowerZ := by
  simp [planarZ]

theorem planarX_last (cfg : PlaneCfg) (hw : 1 < cfg.destWidth) :
    planarX cfg (cfg.destWidth.toNat - 1) = cfg.upperX := by
  unfold planarX
  have hcast : ((cfg.destWidth.toNat : ℕ) : ℚ) = (cfg.destWidth : ℚ) := by
    have h0 := Int.toNat_of_nonneg (by omega : (0 : ℤ) ≤ cfg.destWidth)
    exact_mod_cast congrArg (Int.cast : ℤ → ℚ) h0
  have h1w : 1 ≤ cfg.destWidth.toNat := by omega
  have h2 : ((cfg.destWidth.toNat - 1 : ℕ) : ℚ) = (cfg.destWidth : ℚ) - 1 := by
    rw [Nat.cast_sub h1w, hcast, Nat.cast_one]
  have hne : (cfg.destWidth : ℚ) - 1 ≠ 0 := by
    have : (1 : ℚ) < (cfg.destWidth : ℚ) := by exact_mod_cast hw
    intro hc
    linarith
  rw [h2]
  field_simp

theorem planarZ_last (cfg : PlaneCfg) (hh : 1 < cfg.destHeight) :
    planarZ cfg (cfg.destHeight.toNat - 1) = cfg.upperZ := by
  unfold planarZ
  have hcast : ((cfg.destHeight.toNat : ℕ) : ℚ) = (cfg.destHeight : ℚ) := by
    have h0 := Int.toNat_of_nonneg (by omega : (0 : ℤ) ≤ cfg.destHeight)
    exact_mod_cast congrArg (Int.cast : ℤ → ℚ) h0
  have h1h : 1 ≤ cfg.destHeight.toNat := by omega
  have h2 : ((cfg.destHeight.toNat - 1 : ℕ) : ℚ) = (cfg.destHeight : ℚ) - 1 := by
    rw [Nat.cast_sub h1h, hcast, Nat.cast_one]
  have hne : (cfg.destHeight : ℚ) - 1 ≠ 0 := by
    have : (1 : ℚ) < (cfg.destHeight : ℚ) := by exact_mod_cast hh
    intro hc
    linarith
  rw [h2]
  field_simp

/-- C2: a seamless planar build with destination width and height greater
than 1 produces a NoiseMap whose column 0 equals its last column and whose
row 0 equals its last row, cell for cell, so the output tiles with
pixel-for-pixel continuity. -/
theorem seamless_planar_tiles (cfg : PlaneCfg) (f : ℚ → ℚ → ℚ → ℚ) (m : NoiseMap)
    (hsl : cfg.seamless = true) (hw : 1 < cfg.destWidth) (hh : 1 < cfg.destHeight)
    (hb : buildPlane cfg f = .ok m) :
    (∀ r, r < m.height → m.getVal r 0 = m.getVal r (m.width - 1)) ∧
    (∀ c, c < m.width → m.getVal 0 c = m.getVal (m.height - 1) c) := by
  have hcond : ¬ (cfg.destWidth ≤ 0 ∨ cfg.destHeight ≤ 0) := by
    push_neg
    omega
  rw [buildPlane, if_neg hcond] at hb
  injection hb with hm
  subst hm
  constructor
  · intro r hr
    have hr' : r < cfg.destHeight.toNat := hr
    have h0w : 0 < cfg.destWidth.toNat := by omega
    have hlw : cfg.destWidth.toNat - 1 < cfg.destWidth.toNat := by omega
    dsimp only [NoiseMap.getVal]
    rw [getD_range_map _ _ _ _ hr', getD_range_map _ _ _ _ h0w,
        getD_range_map _ _ _ _ hlw]
    rw [planarX_zero, planarX_last cfg hw]
    simp only [planarValue, hsl, if_true]
    exact seamlessValue_x_wrap cfg f (planarZ cfg r)
  · intro c hc
    have hc' : c < cfg.destWidth.toNat := hc
    have h0h : 0 < cfg.destHeight.toNat := by omega
    have hlh : cfg.destHeight.toNat - 1 < cfg.destHeight.toNat := by omega
    dsimp only [NoiseMap.getVal]
    rw [getD_range_map _ _ _ _ h0h, getD_range_map _ _ _ _ hlh,
        getD_range_map _ _ _ _ hc', getD_range_map _ _ _ _ hc']
    rw [planarZ_zero, planarZ_last cfg hh]
    simp only [planarValue, hsl, if_true]
    exact seamlessValue_z_wrap cfg f (planarX cfg c)

/-- C2 witness: the theorem instantiated at the concrete 3×3 seamless
build. -/
theorem seamless_planar_tiles_witness :
    cfgSeamW.seamless = true ∧ (1 : ℤ) < cfgSeamW.destWidth ∧
    (1 : ℤ) < cfgSeamW.destHeight ∧
    buildPlane cfgSeamW fSeamW = .ok mapSeamW ∧
    mapSeamW.getVal 1 0 = mapSeamW.getVal 1 (mapSeamW.width - 1) ∧
    mapSeamW.getVal 0 1 = mapSeamW.getVal (mapSeamW.height - 1) 1 := by
  have hb : buildPlane cfgSeamW fSeamW = .ok mapSeamW := by
    unfold mapSeamW
    rw [buildPlane, if_neg (by decide)]
    rfl
  have h := seamless_planar_tiles cfgSeamW fSeamW mapSeamW rfl (by decide) (by decide) hb
  exact ⟨rfl, by decide, by decide, hb, h.1 1 (by decide), h.2 1 (by decide)⟩

/-! ## Selector bounds behavior -/

/-- C3 counterexample: with the slimeChooser parameters of
`textureslime.cpp` (bounds [-3/8, 3/8], edge falloff 1/2), a control value
of 1 — strictly above `high + falloff = 7/8` — selects source[0]'s value
(2), not source[1]'s value (3) as the claim states; and a control value at
the exact midpoint 0 of the bounds yields the falloff blend 757/256, which
differs from source[1]'s value 3. -/
theorem select_above_high_counterexample :
    evalV (.select (-(3 / 8)) (3 / 8) (1 / 2) (.const 1) (.const 2) (.const 3)) 0 0 0
        = .ok 2 ∧
    evalV (.const 2) 0 0 0 = .ok 2 ∧
    evalV (.const 3) 0 0 0 = .ok 3 ∧
    (3 / 8 : ℚ) + 1 / 2 < 1 ∧
    evalV (.select (-(3 / 8)) (3 / 8) (1 / 2) (.const 0) (.const 2) (.const 3)) 0 0 0
        = .ok (757 / 256) ∧
    ((0 : ℚ) = (-(3 / 8) + 3 / 8) / 2) ∧
    (757 / 256 : ℚ) ≠ 3 := by
  refine ⟨?_, rfl, rfl, by norm_num, ?_, by norm_num, by norm_num⟩
  · norm_num [evalV, evalS]
  · norm_num [evalV, evalS, selectValue, sCurve3, linearInterp, Except.map]

/-- C3 (amended): for a selector with bounds [low, high] and edge-falloff
width `falloff ≥ 0` whose control module evaluates to `cv`: if `cv` is
strictly below `low - falloff` the selector's outcome is source[0]'s
outcome; if `cv` is strictly above `high + falloff` the outcome is likewise
source[0]'s outcome (outside the bound selects the first candidate); and if
`cv` is exactly the midpoint of [low, high], with `low ≤ high` and the
falloff band not reaching the midpoint (`2·falloff < high - low`), the
outcome is source[1]'s outcome. -/
theorem select_bounds_behavior (low high falloff : ℚ) (ctrl s0 s1 : Module)
    (x y z cv : ℚ) (hf : 0 ≤ falloff) (hc : evalV ctrl x y z = .ok cv) :
    (cv < low - falloff →
      evalV (.select low high falloff ctrl s0 s1) x y z = evalV s0 x y z) ∧
    (high + falloff < cv →
      evalV (.select low high falloff ctrl s0 s1) x y z = evalV s0 x y z) ∧
    (low ≤ high → 2 * falloff < high - low → cv = (low + high) / 2 →
      evalV (.select low high falloff ctrl s0 s1) x y z = evalV s1 x y z) := by
  rw [evalV] at hc
  simp only [evalV, evalS, hc]
  refine ⟨?_, ?_, ?_⟩
  · intro h1
    have houter : ¬ ((0 < falloff ∧ ¬ cv < low - falloff ∧ cv < high + falloff)
        ∨ (¬ 0 < falloff ∧ ¬ (cv < low ∨ high < cv))) := by
      rintro (⟨hfo, hnl, _⟩ | ⟨hfo, hin⟩)
      · exact hnl h1
      · have hz : falloff = 0 := le_antisymm (not_lt.mp hfo) hf
        exact hin (Or.inl (by rw [hz] at h1; linarith))
    rw [if_neg houter]
  · intro h2
    have houter : ¬ ((0 < falloff ∧ ¬ cv < low - falloff ∧ cv < high + falloff)
        ∨ (¬ 0 < falloff ∧ ¬ (cv < low ∨ high < cv))) := by
      rintro (⟨hfo, _, hh⟩ | ⟨hfo, hin⟩)
      · linarith
      · have hz : falloff = 0 := le_antisymm (not_lt.mp hfo) hf
        exact hin (Or.inr (by rw [hz] at h2; linarith))
    rw [if_neg houter]
  · intro hlh h2f hmid
    rcases lt_or_le 0 falloff with hfo | hfo
    · have houter : (0 < falloff ∧ ¬ cv < low - falloff ∧ cv < high + falloff)
          ∨ (¬ 0 < falloff ∧ ¬ (cv < low ∨ high < cv)) := by
        refine Or.inl ⟨hfo, ?_, ?_⟩
        · rw [hmid]
          push_neg
          linarith
        · rw [hmid]
          linarith
      have hinner : (0 < falloff ∧ low + falloff ≤ cv ∧ cv < high - falloff)
          ∨ ¬ 0 < falloff := by
        refine Or.inl ⟨hfo, ?_, ?_⟩
        · rw [hmid]
          linarith
        · rw [hmid]
          linarith
      rw [if_pos houter, if_pos hinner]
    · have hz : falloff = 0 := le_antisymm hfo hf
      have houter : (0 < falloff ∧ ¬ cv < low - falloff ∧ cv < high + falloff)
          ∨ (¬ 0 < falloff ∧ ¬ (cv < low ∨ high < cv)) := by
        refine Or.inr ⟨by rw [hz]; exact lt_irrefl 0, ?_⟩
        rintro (h | h) <;> rw [hmid] at h <;> linarith
      have hinner : (0 < falloff ∧ low + falloff ≤ cv ∧ cv < high - falloff)
          ∨ ¬ 0 < falloff := Or.inr (by rw [hz]; exact lt_irrefl 0)
      rw [if_pos houter, if_pos hinner]

/-- C3 witness: the amended theorem instantiated at the slimeChooser bounds
with a small falloff 1/8 and constant sources. -/
theorem select_bounds_behavior_witness :
    evalV (.select (-(3 / 8)) (3 / 8) (1 / 8) (.const (-1)) (.const 2) (.const 3)) 0 0 0
        = evalV (.const 2) 0 0 0 ∧
    evalV (.select (-(3 / 8)) (3 / 8) (1 / 8) (.const 1) (.const 2) (.const 3)) 0 0 0
        = evalV (.const 2) 0 0 0 ∧
    evalV (.select (-(3 / 8)) (3 / 8) (1 / 8) (.const 0) (.const 2) (.const 3)) 0 0 0
        = evalV (.const 3) 0 0 0 :=
  ⟨(select_bounds_behavior (-(3 / 8)) (3 / 8) (1 / 8) (.const (-1)) (.const 2) (.const 3)
      0 0 0 (-1) (by norm_num) rfl).1 (by norm_num),
   (select_bounds_behavior (-(3 / 8)) (3 / 8) (1 / 8) (.const 1) (.const 2) (.const 3)
      0 0 0 1 (by norm_num) rfl).2.1 (by norm_num),
   (select_bounds_behavior (-(3 / 8)) (3 / 8) (1 / 8) (.const 0) (.const 2) (.const 3)
      0 0 0 0 (by norm_num) rfl).2.2 (by norm_num) (by norm_num) (by norm_num)⟩

/-! ## The end-to-end constant-module scenario -/

theorem scenario_map_eq :
    mapScenario = ⟨4, 4, List.replicate 4 (List.replicate 4 (1 / 2 : ℚ))⟩ := by
  unfold mapScenario
  norm_num [buildPlane, cfgScenario, constHalf, planarValue, List.range_succ, List.replicate,
    Except.toOption, Option.getD]
  decide

theorem scenario_pixels_eq :
    imgScenario.pixels = List.replicate 4 (List.replicate 4 (⟨191, 191, 191, 255⟩ : Color)) := by
  unfold imgScenario
  rw [scenario_map_eq]
  norm_num [renderFlat, NoiseMap.getVal, gradBW, getColor, interpColor, blendChannel,
    List.range_succ, List.replicate, List.getD_cons_zero, List.getD_cons_succ]
  decide

/-- C4 counterexample: in the end-to-end scenario of spec §8 — a 4×4 planar
build of the constant-0.5 module over bounds (-1,1,-1,1), rendered through
the two-point gradient {(-1,black),(1,white)} with lighting disabled — the
rendered pixel is (191,191,191) with full alpha, not the mid-gray
(128,128,128) the claim states: 0.5 lies three quarters of the way from -1
to 1, so the linear blend gives ⌊0.75·255⌋ = 191. -/
theorem scenario_midgray_counterexample :
    imgScenario.getPixel 0 0 = ⟨191, 191, 191, 255⟩ ∧
    imgScenario.getPixel 0 0 ≠ ⟨128, 128, 128, 255⟩ := by
  have h : imgScenario.getPixel 0 0 = ⟨191, 191, 191, 255⟩ := by
    unfold Image.getPixel
    rw [scenario_pixels_eq]
    decide
  exact ⟨h, by rw [h]; decide⟩

/-- C4 (amended): the 4×4 planar build of the constant-0.5 module over
bounds (-1,1,-1,1) with seamless disabled succeeds and yields 0.5 in every
cell; rendering it through the two-point gradient {(-1,black),(1,white)}
with lighting disabled yields the pixel (191,191,191) with full alpha at
every position. -/
theorem scenario_constant_render :
    buildPlane cfgScenario constHalf = .ok mapScenario ∧
    mapScenario.values = List.replicate 4 (List.replicate 4 (1 / 2 : ℚ)) ∧
    imgScenario.pixels
      = List.replicate 4 (List.replicate 4 (⟨191, 191, 191, 255⟩ : Color)) := by
  refine ⟨?_, by rw [scenario_map_eq], scenario_pixels_eq⟩
  unfold mapScenario
  rw [buildPlane, if_neg (by decide)]
  rfl

/-! ## Pole collapse of the spherical build -/

theorem sphereGetValue_cos_zero (f : ℝ → ℝ → ℝ → ℝ) (lat lon1 lon2 : ℝ)
    (hc : Real.cos (degToRad lat) = 0) :
    sphereGetValue f lat lon1 = sphereGetValue f lat lon2 := by
  simp only [sphereGetValue, latLonToXYZ]
  rw [hc]
  simp

/-- C7: a spherical build whose latitude range is [-90°, 90°] produces a
single well-defined scalar across each pole row: on the lat = 90 row (the
last row) and on the lat = -90 row (row 0), every column holds an identical
value, for every module evaluation function. -/
theorem sphere_pole_rows_constant (cfg : SphereCfg) (f : ℝ → ℝ → ℝ → ℝ) (i j : ℕ)
    (hso : cfg.southLat = -90) (hno : cfg.northLat = 90) (hh : 2 ≤ cfg.destHeight) :
    sphereBuildValue cfg f (cfg.destHeight - 1) i
        = sphereBuildValue cfg f (cfg.destHeight - 1) j ∧
    sphereBuildValue cfg f 0 i = sphereBuildValue cfg f 0 j := by
  constructor
  · unfold sphereBuildValue
    apply sphereGetValue_cos_zero
    have hlat : sphereLatAt cfg (cfg.destHeight - 1) = 90 := by
      unfold sphereLatAt
      rw [hso, hno]
      have h1 : ((cfg.destHeight - 1 : ℕ) : ℝ) = (cfg.destHeight : ℝ) - 1 := by
        rw [Nat.cast_sub (by omega)]
        norm_num
      have hne : (cfg.destHeight : ℝ) - 1 ≠ 0 := by
        have h2 : (2 : ℝ) ≤ (cfg.destHeight : ℝ) := by exact_mod_cast hh
        intro hcon
        linarith
      rw [h1]
      field_simp
    rw [hlat, (by unfold degToRad; ring : degToRad (90 : ℝ) = Real.pi / 2),
      Real.cos_pi_div_two]
  · unfold sphereBuildValue
    apply sphereGetValue_cos_zero
    have hlat : sphereLatAt cfg 0 = -90 := by
      unfold sphereLatAt
      rw [hso]
      simp
    rw [hlat, (by unfold degToRad; ring : degToRad (-90 : ℝ) = -(Real.pi / 2)),
      Real.cos_neg, Real.cos_pi_div_two]

/-- C7 witness: the theorem instantiated at the full-range spherical build
of the example programs (bounds (-90,90,-180,180)), a 6×3 destination and a
coordinate-dependent evaluation function, comparing columns 0 and 1 of both
pole rows. -/
theorem sphere_pole_rows_constant_witness :
    (2 : ℕ) ≤ 3 ∧
    sphereBuildValue ⟨-90, 90, -180, 180, 6, 3⟩ (fun x y z => x + y + z) 2 0
      = sphereBuildValue ⟨-90, 90, -180, 180, 6, 3⟩ (fun x y z => x + y + z) 2 1 ∧
    sphereBuildValue ⟨-90, 90, -180, 180, 6, 3⟩ (fun x y z => x + y + z) 0 0
      = sphereBuildValue ⟨-90, 90, -180, 180, 6, 3⟩ (fun x y z => x + y + z) 0 1 :=
  ⟨by norm_num,
   (sphere_pole_rows_constant ⟨-90, 90, -180, 180, 6, 3⟩ (fun x y z => x + y + z) 0 1
     rfl rfl (by norm_num)).1,
   (sphere_pole_rows_constant ⟨-90, 90, -180, 180, 6, 3⟩ (fun x y z => x + y + z) 0 1
     rfl rfl (by norm_num)).2⟩

end LibNoise
